import Mathlib

/-
Shallow embedding of the `cleanup` Go program (src/main.go).

Modelling decisions:
* `time.Time` is modelled as an `Int` (nanoseconds relative to Go's zero
  `time.Time`); Go's zero time is `0`, `t.IsZero()` is `t = 0`,
  `a.After b` is `a > b`, `a.Before b` is `a < b`.
* `newestTime.AddDate(0, 0, -days)` is modelled as subtracting
  `days * nsPerDay`, one civil day being a fixed length.
* A directory entry (`os.DirEntry`) is a `FileEntry` carrying the data the
  program observes: its name, whether `entry.Type().IsRegular()` holds,
  the result of `times.Stat` (`none` models a stat error, otherwise the
  pair (modification time, birth time)), and whether `os.Remove` on it
  would succeed.  A run is sequential with no concurrent modification, so
  the two `times.Stat` calls made on the same path return the same result.
* A `Folder` is the result of `os.ReadDir`: `readOk = false` models a
  ReadDir error (in which case `processFolder` returns the error).
* Environment variables are strings, with `""` meaning unset, exactly as
  `os.Getenv` reports them.
* The YAML file system is a function `String → Option Config`: `none`
  models an unreadable or malformed file (`readYAMLConfig` error).
* `log.Fatal*` (process exit with nonzero status) is the `ConfigResult.fatal`
  outcome; every `log.Fatal*` call in the program occurs during
  configuration resolution, before any folder is processed.
-/

namespace Cleanup

/-- Nanoseconds in one day, the unit used to model `AddDate(0, 0, -days)`. -/
def nsPerDay : Int := 86400000000000

/-- What the program observes about one directory entry of the folder:
name, regular-file flag, `times.Stat` outcome, and `os.Remove` outcome. -/
structure FileEntry where
  name : String
  isRegular : Bool
  stat : Option (Int × Int)
  removeOk : Bool
deriving DecidableEq, Repr

/-- The result of `os.ReadDir` on a target folder. -/
structure Folder where
  readOk : Bool
  entries : List FileEntry
deriving DecidableEq, Repr

/-- Lines 98-102 of main.go: the larger of a file's modification time and
birth time (`fileNewest`, updated when `birth.After(fileNewest)`). -/
def fileNewestOf (modTime birthTime : Int) : Int :=
  if birthTime > modTime then birthTime else modTime

/-- One iteration of the first loop of `processFolder` (lines 87-107),
restricted to its effect on `newestTime`. -/
def scanStep (newest : Int) (e : FileEntry) : Int :=
  if e.isRegular then
    match e.stat with
    | none => newest
    | some (m, b) =>
      let fn := fileNewestOf m b
      if fn > newest then fn else newest
  else newest

/-- The `newestTime` computed by the first loop of `processFolder`,
starting from the zero `time.Time`. -/
def scanNewest (entries : List FileEntry) : Int :=
  entries.foldl scanStep 0

/-- Line 116 of main.go: `cutoff := newestTime.AddDate(0, 0, -days)`. -/
def cutoffOf (entries : List FileEntry) (days : Int) : Int :=
  scanNewest entries - days * nsPerDay

/-- Whether the second loop of `processFolder` (lines 120-139) removes the
file of this entry: stat succeeds, both timestamps are strictly before the
cutoff, and `os.Remove` succeeds. -/
def wouldDelete (cutoff : Int) (e : FileEntry) : Bool :=
  match e.stat with
  | none => false
  | some (m, b) =>
    if m < cutoff ∧ b < cutoff then e.removeOk else false

/-- Whether an arbitrary entry of the folder is removed by `processFolder`:
only regular files are in `fileEntries`, hence only they can be removed. -/
def entryDeleted (e : FileEntry) (cutoff : Int) : Bool :=
  e.isRegular && wouldDelete cutoff e

/-- One iteration of the second loop of `processFolder` (lines 120-139),
restricted to its effect on `deletedFiles`. -/
def deleteStep (cutoff : Int) (deleted : Nat) (e : FileEntry) : Nat :=
  match e.stat with
  | none => deleted
  | some (m, b) =>
    if m < cutoff ∧ b < cutoff then
      if e.removeOk then deleted + 1 else deleted
    else deleted

/-- The observable outcome of `processFolder`: the two returned counters,
whether an error was returned, and the entries still present afterwards. -/
structure FolderResult where
  total : Nat
  deleted : Nat
  err : Bool
  remaining : List FileEntry
deriving DecidableEq, Repr

/-- `processFolder(folder, days)` (lines 73-141 of main.go).  On a ReadDir
error it returns `(0, 0, err)`.  Otherwise it counts the regular files,
computes `newestTime`; if that is zero (no usable file) it returns without
deleting; otherwise it deletes every regular file whose stat succeeds and
whose two timestamps are both strictly before the cutoff. -/
def processFolder (folder : Folder) (days : Int) : FolderResult :=
  if folder.readOk = false then ⟨0, 0, true, folder.entries⟩
  else
    let fileEntries := folder.entries.filter (fun e => e.isRegular)
    let totalFiles := fileEntries.length
    let newestTime := scanNewest folder.entries
    if newestTime = 0 then ⟨totalFiles, 0, false, folder.entries⟩
    else
      let cutoff := cutoffOf folder.entries days
      ⟨totalFiles, fileEntries.foldl (deleteStep cutoff) 0, false,
        folder.entries.filter (fun e => !entryDeleted e cutoff)⟩

/-- The runtime configuration (`Config` struct of main.go). -/
structure Config where
  days : Int
  folders : List String
deriving DecidableEq, Repr

/-- The two environment variables the program reads; `""` means unset. -/
structure Env where
  days : String
  folders : String
deriving DecidableEq, Repr

/-- A decimal digit, as `strconv.Atoi` accepts them. -/
def isDigitCh (c : Char) : Bool := 48 ≤ c.toNat && c.toNat ≤ 57

/-- Value of a digit list read in base 10. -/
def natOfDigits (cs : List Char) : Nat :=
  cs.foldl (fun acc c => acc * 10 + (c.toNat - 48)) 0

/-- Model of `strconv.Atoi`: an optional sign followed by at least one
decimal digit; anything else is an error (`none`). -/
def atoi (s : String) : Option Int :=
  match s.toList with
  | [] => none
  | c :: cs =>
    let signed : Int × List Char :=
      if c = '-' then (-1, cs)
      else if c = '+' then (1, cs)
      else (1, c :: cs)
    if signed.2 ≠ [] && signed.2.all isDigitCh then
      some (signed.1 * (natOfDigits signed.2 : Int))
    else none

/-- `isNumber` of main.go (lines 157-160). -/
def isNumber (s : String) : Bool := (atoi s).isSome

/-- The FOLDERS half of `parseEnvConfig` (lines 48-55): split on commas and
trim each entry, when the variable is set. -/
def envFolders (days : Int) (env : Env) : Config :=
  if env.folders = "" then ⟨days, []⟩
  else ⟨days, (env.folders.splitOn (",")).map String.trim⟩

/-- `parseEnvConfig` (lines 38-57 of main.go).  The `Bool` is whether the
error return was non-nil: a set but non-numeric DAYS returns the config
built so far (nothing) together with an error. -/
def parseEnvConfig (env : Env) : Config × Bool :=
  if env.days = "" then (envFolders 0 env, false)
  else
    match atoi env.days with
    | none => (⟨0, []⟩, true)
    | some d => (envFolders d env, false)

/-- `mergeConfigs` (lines 61-69 of main.go): an argument field is kept
unless it is zero / empty, in which case the environment field is used. -/
def mergeConfigs (argCfg envCfg : Config) : Config :=
  ⟨if argCfg.days = 0 then envCfg.days else argCfg.days,
   if argCfg.folders = [] then envCfg.folders else argCfg.folders⟩

/-- Outcome of configuration resolution in `main`: either a `log.Fatal*`
(process exits nonzero) or a validated configuration. -/
inductive ConfigResult where
  | fatal
  | ok (cfg : Config)
deriving DecidableEq, Repr

/-- Lines 173-194 of main.go: the configuration taken from the command
line.  A numeric first argument is the day count and the remaining
arguments are the folders; otherwise the first argument is a YAML path
(`yaml` models `readYAMLConfig`, `none` being a read or parse error, which
is fatal). -/
def argConfigOf (args : List String) (yaml : String → Option Config) : ConfigResult :=
  match args with
  | [] => ConfigResult.ok ⟨0, []⟩
  | a0 :: rest =>
    if isNumber a0 then
      ConfigResult.ok ⟨(atoi a0).getD 0, rest⟩
    else
      match yaml a0 with
      | none => ConfigResult.fatal
      | some cfg => ConfigResult.ok cfg

/-- Lines 196-198 of main.go: the merged configuration before validation.
Note `envCfg, _ := parseEnvConfig()` — the error of `parseEnvConfig` is
discarded, only the partially built config is used. -/
def mergedOf (args : List String) (yaml : String → Option Config) (env : Env) :
    ConfigResult :=
  match argConfigOf args yaml with
  | ConfigResult.fatal => ConfigResult.fatal
  | ConfigResult.ok argCfg =>
      ConfigResult.ok (mergeConfigs argCfg (parseEnvConfig env).1)

/-- Lines 171-202 of main.go: full configuration resolution, including the
final validation `cfg.Days <= 0 || len(cfg.Folders) == 0` which is fatal. -/
def resolveConfig (args : List String) (yaml : String → Option Config) (env : Env) :
    ConfigResult :=
  match mergedOf args yaml env with
  | ConfigResult.fatal => ConfigResult.fatal
  | ConfigResult.ok cfg =>
      if cfg.days ≤ 0 ∨ cfg.folders = [] then ConfigResult.fatal
      else ConfigResult.ok cfg

/-- One iteration of the folder loop of `main` (lines 207-225): blank
names are skipped, a missing folder or non-directory (`fs name = none`) is
skipped, a `processFolder` error is logged and skipped, and otherwise the
two counters are accumulated. -/
def mainStep (fs : String → Option Folder) (days : Int) (acc : Nat × Nat)
    (name : String) : Nat × Nat :=
  let folder := name.trim
  if folder = "" then acc
  else
    match fs folder with
    | none => acc
    | some f =>
      let r := processFolder f days
      if r.err then acc else (acc.1 + r.total, acc.2 + r.deleted)

/-- The whole folder loop of `main`, accumulating overall totals. -/
def runFolders (fs : String → Option Folder) (days : Int)
    (folders : List String) : Nat × Nat :=
  folders.foldl (mainStep fs days) (0, 0)

/-- The per-file newest timestamps the scan loop can see: one value per
regular file whose `times.Stat` succeeded. -/
def entryNewest? (e : FileEntry) : Option Int :=
  if e.isRegular then e.stat.map (fun p => fileNewestOf p.1 p.2) else none

/-- All per-file newest timestamps of a folder, in directory order. -/
def fileNewests (entries : List FileEntry) : List Int :=
  entries.filterMap entryNewest?

/-- Sample data: an old regular file (both timestamps far before any cutoff). -/
def oldEntry : FileEntry := ⟨"old", true, some (1, 1), true⟩

/-- Sample data: the newest regular file of the sample folder. -/
def newEntry : FileEntry := ⟨"new", true, some (10 * nsPerDay, 10 * nsPerDay), true⟩

/-- Sample data: a non-regular entry (subdirectory). -/
def dirEntry : FileEntry := ⟨"sub", false, none, true⟩

/-- Sample data: a regular file whose `times.Stat` fails. -/
def statErrEntry : FileEntry := ⟨"bad", true, none, true⟩

/-- Sample folder with a new and an old file. -/
def sampleFolder : Folder := ⟨true, [newEntry, oldEntry]⟩

/-- Sample folder containing only a subdirectory. -/
def dirOnlyFolder : Folder := ⟨true, [dirEntry]⟩

/-- Sample folder whose only regular file has a failing stat. -/
def statErrFolder : Folder := ⟨true, [statErrEntry, dirEntry]⟩

/-- Sample non-numeric DAYS value. -/
def badDaysStr : String := "abc"

/-- Sample numeric CLI argument. -/
def fiveStr : String := "5"

/-- Sample numeric CLI argument equal to zero. -/
def zeroStr : String := "0"

/-- Sample numeric DAYS environment value. -/
def sevenStr : String := "7"

/-- Sample folder path. -/
def folderX : String := "x"

/-- Sample folder path. -/
def folderF : String := "f"

/-- Sample name of a missing folder. -/
def missingName : String := "gone"

lemma scanStep_none (a : Int) (e : FileEntry) (h : entryNewest? e = none) :
    scanStep a e = a := by
  unfold entryNewest? at h
  unfold scanStep
  cases hr : e.isRegular
  · simp
  · simp only [hr] at h
    simp only [if_pos rfl] at h ⊢
    cases hs : e.stat
    · rfl
    · rw [hs] at h; simp at h

lemma scanStep_some (a : Int) (e : FileEntry) (fn : Int)
    (h : entryNewest? e = some fn) : scanStep a e = max a fn := by
  unfold entryNewest? at h
  unfold scanStep
  cases hr : e.isRegular
  · simp only [hr] at h; simp at h
  · simp only [hr, if_pos rfl] at h ⊢
    cases hs : e.stat
    · rw [hs] at h; simp at h
    · rename_i p
      obtain ⟨m, b⟩ := p
      rw [hs] at h
      simp only [if_true, Option.map_some', Option.some.injEq] at h
      simp only [if_true]
      subst h
      by_cases hgt : fileNewestOf m b > a
      · simp only [if_pos hgt]
        exact (max_eq_right (le_of_lt hgt)).symm
      · simp only [if_neg hgt]
        exact (max_eq_left (by omega)).symm

lemma entryNewest?_some_elim (e : FileEntry) (fn : Int)
    (h : entryNewest? e = some fn) :
    e.isRegular = true ∧ ∃ m b, e.stat = some (m, b) ∧ fileNewestOf m b = fn := by
  unfold entryNewest? at h
  cases hr : e.isRegular
  · simp [hr] at h
  · simp only [hr, if_pos rfl] at h
    cases hs : e.stat
    · rw [hs] at h; simp at h
    · rename_i p
      obtain ⟨m, b⟩ := p
      rw [hs] at h
      simp only [if_true, Option.map_some', Option.some.injEq] at h
      exact ⟨rfl, m, b, rfl, h⟩

lemma foldl_scan_eq (l : List FileEntry) :
    ∀ a : Int, l.foldl scanStep a = (fileNewests l).foldl max a := by
  induction l with
  | nil => intro a; rfl
  | cons e l ih =>
    intro a
    cases h : entryNewest? e
    · simp only [List.foldl_cons, fileNewests, List.filterMap_cons, h]
      rw [scanStep_none a e h]
      simpa [fileNewests] using ih a
    · rename_i fn
      simp only [List.foldl_cons, fileNewests, List.filterMap_cons, h]
      rw [scanStep_some a e fn h]
      simpa [fileNewests] using ih (max a fn)

lemma scanNewest_eq_foldl_max (entries : List FileEntry) :
    scanNewest entries = (fileNewests entries).foldl max 0 :=
  foldl_scan_eq entries 0

lemma le_foldl_max (l : List Int) : ∀ a : Int, a ≤ l.foldl max a := by
  induction l with
  | nil => intro a; exact le_refl a
  | cons x l ih =>
    intro a
    exact le_trans (le_max_left a x) (ih (max a x))

lemma foldl_max_mem (l : List Int) :
    ∀ a : Int, l.foldl max a = a ∨ l.foldl max a ∈ l := by
  induction l with
  | nil => intro a; exact Or.inl rfl
  | cons x l ih =>
    intro a
    rw [List.foldl_cons]
    rcases ih (max a x) with h | h
    · rcases max_choice a x with hm | hm
      · exact Or.inl (by rw [h, hm])
      · exact Or.inr (by rw [h, hm]; exact List.mem_cons_self x l)
    · exact Or.inr (List.mem_cons_of_mem x h)

lemma mem_le_foldl_max (l : List Int) :
    ∀ (a x : Int), x ∈ l → x ≤ l.foldl max a := by
  induction l with
  | nil => intro a x hx; cases hx
  | cons y l ih =>
    intro a x hx
    rw [List.foldl_cons]
    rcases List.mem_cons.mp hx with rfl | h
    · exact le_trans (le_max_right a x) (le_foldl_max l (max a x))
    · exact ih (max a y) x h

lemma le_scanNewest (entries : List FileEntry) (t : Int)
    (ht : t ∈ fileNewests entries) : t ≤ scanNewest entries := by
  rw [scanNewest_eq_foldl_max]
  exact mem_le_foldl_max (fileNewests entries) 0 t ht

lemma scanNewest_mem_or_zero (entries : List FileEntry) :
    scanNewest entries = 0 ∨ scanNewest entries ∈ fileNewests entries := by
  rw [scanNewest_eq_foldl_max]
  exact foldl_max_mem (fileNewests entries) 0

lemma scanNewest_eq_zero_of_no_newest (entries : List FileEntry)
    (h : ∀ e ∈ entries, entryNewest? e = none) : scanNewest entries = 0 := by
  rw [scanNewest_eq_foldl_max]
  have hnil : fileNewests entries = [] := by
    unfold fileNewests
    exact List.filterMap_eq_nil_iff.mpr h
  rw [hnil]
  rfl

lemma deleteStep_eq (c : Int) (d : Nat) (e : FileEntry) :
    deleteStep c d e = if wouldDelete c e then d + 1 else d := by
  unfold deleteStep wouldDelete
  cases hs : e.stat
  · simp
  · rename_i p
    obtain ⟨m, b⟩ := p
    dsimp only
    by_cases hc : m < c ∧ b < c
    · rw [if_pos hc, if_pos hc]
    · rw [if_neg hc, if_neg hc]
      simp

lemma foldl_deleteStep (c : Int) (l : List FileEntry) :
    ∀ d : Nat, l.foldl (deleteStep c) d = d + l.countP (wouldDelete c) := by
  induction l with
  | nil => intro d; simp
  | cons e l ih =>
    intro d
    rw [List.foldl_cons, deleteStep_eq, List.countP_cons, ih]
    by_cases h : wouldDelete c e = true
    · simp [h]; omega
    · simp [h]

lemma countP_wouldDelete_filter (c : Int) (l : List FileEntry) :
    (l.filter (fun e => e.isRegular)).countP (wouldDelete c) =
      l.countP (fun e => entryDeleted e c) := by
  induction l with
  | nil => rfl
  | cons e l ih =>
    cases hr : e.isRegular
    · simp [List.filter_cons, List.countP_cons, hr, entryDeleted, ih]
    · simp [List.filter_cons, List.countP_cons, hr, entryDeleted, ih]

lemma countP_add_length_filter_not (p : FileEntry → Bool) (l : List FileEntry) :
    l.countP p + (l.filter (fun e => !p e)).length = l.length := by
  induction l with
  | nil => rfl
  | cons e l ih =>
    cases h : p e <;> simp [List.countP_cons, List.filter_cons, h] <;> omega

lemma removeOk_of_wouldDelete (c : Int) (e : FileEntry)
    (h : wouldDelete c e = true) : e.removeOk = true := by
  unfold wouldDelete at h
  cases hs : e.stat
  · rw [hs] at h; simp at h
  · rename_i p
    obtain ⟨m, b⟩ := p
    rw [hs] at h
    dsimp only at h
    by_cases hc : m < c ∧ b < c
    · rwa [if_pos hc] at h
    · rw [if_neg hc] at h; simp at h

lemma wouldDelete_stat_some (c : Int) (e : FileEntry) (m b : Int)
    (hs : e.stat = some (m, b)) :
    wouldDelete c e = (decide (m < c) && decide (b < c) && e.removeOk) := by
  unfold wouldDelete
  rw [hs]
  by_cases h1 : m < c <;> by_cases h2 : b < c <;>
    simp [h1, h2]

lemma processFolder_readErr (f : Folder) (days : Int) (h : f.readOk = false) :
    processFolder f days = ⟨0, 0, true, f.entries⟩ := by
  unfold processFolder
  rw [if_pos h]

lemma processFolder_skip (f : Folder) (days : Int) (hr : f.readOk = true)
    (hz : scanNewest f.entries = 0) :
    processFolder f days =
      ⟨(f.entries.filter (fun e => e.isRegular)).length, 0, false, f.entries⟩ := by
  unfold processFolder
  rw [hr]
  simp [hz]

lemma processFolder_delete (f : Folder) (days : Int) (hr : f.readOk = true)
    (hz : scanNewest f.entries ≠ 0) :
    processFolder f days =
      ⟨(f.entries.filter (fun e => e.isRegular)).length,
       (f.entries.filter (fun e => e.isRegular)).foldl
         (deleteStep (cutoffOf f.entries days)) 0,
       false,
       f.entries.filter (fun e => !entryDeleted e (cutoffOf f.entries days))⟩ := by
  unfold processFolder
  rw [hr]
  simp [hz]

lemma mem_remaining_delete (f : Folder) (days : Int) (hr : f.readOk = true)
    (hz : scanNewest f.entries ≠ 0) (e : FileEntry) :
    e ∈ (processFolder f days).remaining ↔
      e ∈ f.entries ∧ entryDeleted e (cutoffOf f.entries days) = false := by
  rw [processFolder_delete f days hr hz]
  simp [List.mem_filter]

lemma cutoffOf_lt_scanNewest (entries : List FileEntry) (days : Int)
    (hd : 1 ≤ days) : cutoffOf entries days < scanNewest entries := by
  unfold cutoffOf
  have h1 : (0 : Int) < nsPerDay := by norm_num [nsPerDay]
  have h2 : (0 : Int) < days * nsPerDay := mul_pos (by omega) h1
  linarith

lemma entryDeleted_false_of_attains (entries : List FileEntry) (days : Int)
    (hd : 1 ≤ days) (e : FileEntry) (m b : Int) (hs : e.stat = some (m, b))
    (hfn : fileNewestOf m b = scanNewest entries) :
    entryDeleted e (cutoffOf entries days) = false := by
  have hlt := cutoffOf_lt_scanNewest entries days hd
  have hnot : ¬(m < cutoffOf entries days ∧ b < cutoffOf entries days) := by
    intro hc
    unfold fileNewestOf at hfn
    by_cases hb : b > m
    · rw [if_pos hb] at hfn; omega
    · rw [if_neg hb] at hfn; omega
  unfold entryDeleted
  rw [wouldDelete_stat_some (cutoffOf entries days) e m b hs]
  rcases not_and_or.mp hnot with h1 | h1 <;> simp [h1]

lemma exists_attaining (entries : List FileEntry)
    (hz : scanNewest entries ≠ 0) :
    ∃ e ∈ entries, ∃ m b, e.isRegular = true ∧ e.stat = some (m, b) ∧
      fileNewestOf m b = scanNewest entries := by
  rcases scanNewest_mem_or_zero entries with h | h
  · exact absurd h hz
  · rcases List.mem_filterMap.mp (by simpa [fileNewests] using h) with ⟨e, he, hfn⟩
    rcases entryNewest?_some_elim e _ hfn with ⟨hreg, m, b, hstat, hmb⟩
    exact ⟨e, he, m, b, hreg, hstat, hmb⟩

lemma entryDeleted_iff (c : Int) (e : FileEntry) (m b : Int)
    (hreg : e.isRegular = true) (hstat : e.stat = some (m, b)) :
    entryDeleted e c = true ↔ m < c ∧ b < c ∧ e.removeOk = true := by
  unfold entryDeleted
  rw [hreg, wouldDelete_stat_some c e m b hstat]
  simp [and_assoc]

lemma mainStep_skip (fs : String → Option Folder) (days : Int)
    (acc : Nat × Nat) (name : String)
    (h : name.trim = "" ∨ fs name.trim = none) :
    mainStep fs days acc name = acc := by
  unfold mainStep
  rcases h with h | h
  · rw [if_pos h]
  · by_cases hb : name.trim = ""
    · rw [if_pos hb]
    · rw [if_neg hb, h]

lemma mergedOf_env_congr (args : List String) (yaml : String → Option Config)
    (env1 env2 : Env) (h : (parseEnvConfig env1).1 = (parseEnvConfig env2).1) :
    mergedOf args yaml env1 = mergedOf args yaml env2 := by
  unfold mergedOf
  cases harg : argConfigOf args yaml
  · rfl
  · dsimp only
    rw [h]

lemma resolveConfig_env_congr (args : List String) (yaml : String → Option Config)
    (env1 env2 : Env) (h : (parseEnvConfig env1).1 = (parseEnvConfig env2).1) :
    resolveConfig args yaml env1 = resolveConfig args yaml env2 := by
  unfold resolveConfig
  rw [mergedOf_env_congr args yaml env1 env2 h]

/-- C1: in a scan that reaches the deletion phase, a regular file whose
stat succeeds and whose removal would succeed is deleted exactly when both
its modification time and its birth time are strictly before the cutoff;
and a file with either timestamp at or after the cutoff is never deleted,
regardless of anything else. -/
theorem delete_iff_both_timestamps_before_cutoff
    (f : Folder) (days : Int) (e : FileEntry) (m b : Int)
    (hread : f.readOk = true) (he : e ∈ f.entries)
    (hreg : e.isRegular = true) (hstat : e.stat = some (m, b))
    (hnz : scanNewest f.entries ≠ 0) :
    (e.removeOk = true →
      (e ∉ (processFolder f days).remaining ↔
        m < cutoffOf f.entries days ∧ b < cutoffOf f.entries days)) ∧
    (cutoffOf f.entries days ≤ m ∨ cutoffOf f.entries days ≤ b →
      e ∈ (processFolder f days).remaining) := by
  have hmem := mem_remaining_delete f days hread hnz e
  have hiff := entryDeleted_iff (cutoffOf f.entries days) e m b hreg hstat
  have hmem' : (e ∉ (processFolder f days).remaining) ↔
      entryDeleted e (cutoffOf f.entries days) = true := by
    rw [hmem]
    simp [he]
  constructor
  · intro hrm
    rw [hmem', hiff]
    simp [hrm]
  · intro hge
    rw [hmem]
    refine ⟨he, ?_⟩
    cases hb : entryDeleted e (cutoffOf f.entries days)
    · rfl
    · rcases hiff.mp hb with ⟨h1, h2, _⟩
      rcases hge with hg | hg <;> omega

/-- C1 witness: the old file of the sample folder is deleted with a
one-day retention, and the boundary statement holds for it. -/
theorem delete_iff_both_timestamps_before_cutoff_witness :
    (oldEntry.removeOk = true →
      (oldEntry ∉ (processFolder sampleFolder 1).remaining ↔
        1 < cutoffOf sampleFolder.entries 1 ∧ 1 < cutoffOf sampleFolder.entries 1)) ∧
    (cutoffOf sampleFolder.entries 1 ≤ 1 ∨ cutoffOf sampleFolder.entries 1 ≤ 1 →
      oldEntry ∈ (processFolder sampleFolder 1).remaining) :=
  delete_iff_both_timestamps_before_cutoff sampleFolder 1 oldEntry 1 1
    rfl (by decide) rfl rfl (by decide)

/-- C2: whenever some regular file of the folder has a positive newest
timestamp, the `newestTime` of the scan is exactly the maximum of the
per-file newest timestamps (the larger of modification and birth time of
each regular file whose stat succeeded), and the cutoff is that maximum
minus `days` days.  `cutoffOf` takes no clock argument: the cutoff is a
function of the folder contents and the retention window only, never of
the wall-clock time. -/
theorem cutoff_is_newest_minus_retention
    (entries : List FileEntry) (days : Int)
    (h : ∃ t ∈ fileNewests entries, 0 < t) :
    scanNewest entries ∈ fileNewests entries ∧
    (∀ t ∈ fileNewests entries, t ≤ scanNewest entries) ∧
    cutoffOf entries days = scanNewest entries - days * nsPerDay := by
  rcases h with ⟨t, ht, htpos⟩
  have hle := le_scanNewest entries t ht
  refine ⟨?_, fun u hu => le_scanNewest entries u hu, rfl⟩
  rcases scanNewest_mem_or_zero entries with h0 | hmem
  · omega
  · exact hmem

/-- C2 witness: the sample folder's newest timestamp and cutoff. -/
theorem cutoff_is_newest_minus_retention_witness :
    scanNewest sampleFolder.entries ∈ fileNewests sampleFolder.entries ∧
    (∀ t ∈ fileNewests sampleFolder.entries, t ≤ scanNewest sampleFolder.entries) ∧
    cutoffOf sampleFolder.entries 5 = scanNewest sampleFolder.entries - 5 * nsPerDay :=
  cutoff_is_newest_minus_retention sampleFolder.entries 5 ⟨1, by decide, by decide⟩

/-- C6: a readable folder containing no regular files yields the result
(0, 0, no error) and its entries are left unchanged. -/
theorem empty_folder_untouched (f : Folder) (days : Int)
    (hread : f.readOk = true)
    (h : ∀ e ∈ f.entries, e.isRegular = false) :
    processFolder f days = ⟨0, 0, false, f.entries⟩ := by
  have hz : scanNewest f.entries = 0 := by
    apply scanNewest_eq_zero_of_no_newest
    intro e he
    unfold entryNewest?
    rw [h e he]
    simp
  have hfil : f.entries.filter (fun e => e.isRegular) = [] := by
    rw [List.filter_eq_nil_iff]
    intro e he
    simp [h e he]
  rw [processFolder_skip f days hread hz, hfil]
  rfl

/-- C6 witness: a folder holding only a subdirectory is left untouched. -/
theorem empty_folder_untouched_witness :
    processFolder dirOnlyFolder 2 = ⟨0, 0, false, dirOnlyFolder.entries⟩ :=
  empty_folder_untouched dirOnlyFolder 2 rfl (by decide)

/-- C8: in a readable folder with at least one regular file, all of whose
regular files have a successful stat, and with a retention window of at
least one day, every file attaining the folder's newest timestamp stays,
and some regular file survives the run. -/
theorem newest_file_survives (f : Folder) (days : Int)
    (hread : f.readOk = true)
    (hne : ∃ e ∈ f.entries, e.isRegular = true)
    (_hstats : ∀ e ∈ f.entries, e.isRegular = true → e.stat ≠ none)
    (hdays : 1 ≤ days) :
    (∀ e ∈ f.entries, ∀ m b, e.stat = some (m, b) →
        fileNewestOf m b = scanNewest f.entries →
        e ∈ (processFolder f days).remaining) ∧
    ∃ e ∈ (processFolder f days).remaining, e.isRegular = true := by
  by_cases hz : scanNewest f.entries = 0
  · rw [processFolder_skip f days hread hz]
    exact ⟨fun e he m b _ _ => he, hne⟩
  · have hsurv : ∀ e ∈ f.entries, ∀ m b, e.stat = some (m, b) →
        fileNewestOf m b = scanNewest f.entries →
        e ∈ (processFolder f days).remaining := by
      intro e he m b hs hfn
      rw [mem_remaining_delete f days hread hz e]
      exact ⟨he, entryDeleted_false_of_attains f.entries days hdays e m b hs hfn⟩
    refine ⟨hsurv, ?_⟩
    rcases exists_attaining f.entries hz with ⟨e, he, m, b, hreg, hs, hfn⟩
    exact ⟨e, hsurv e he m b hs hfn, hreg⟩

/-- C8 witness: in the sample folder the newest file survives a one-day
retention run. -/
theorem newest_file_survives_witness :
    (∀ e ∈ sampleFolder.entries, ∀ m b, e.stat = some (m, b) →
        fileNewestOf m b = scanNewest sampleFolder.entries →
        e ∈ (processFolder sampleFolder 1).remaining) ∧
    ∃ e ∈ (processFolder sampleFolder 1).remaining, e.isRegular = true :=
  newest_file_survives sampleFolder 1 rfl ⟨newEntry, by decide, rfl⟩
    (by decide) (by decide)

/-- C9: whenever `processFolder` returns without error, the deleted count
is at most the seen count, the deleted count is exactly the number of
entries that disappeared from the folder, and every entry that disappeared
is one whose removal succeeded. -/
theorem deleted_counts_successful_removals (f : Folder) (days : Int)
    (h : (processFolder f days).err = false) :
    (processFolder f days).deleted ≤ (processFolder f days).total ∧
    (processFolder f days).deleted + (processFolder f days).remaining.length
      = f.entries.length ∧
    (∀ e ∈ f.entries, e ∉ (processFolder f days).remaining →
      e.removeOk = true) := by
  cases hread : f.readOk
  · rw [processFolder_readErr f days hread] at h
    simp at h
  · by_cases hz : scanNewest f.entries = 0
    · rw [processFolder_skip f days hread hz]
      refine ⟨Nat.zero_le _, by simp, ?_⟩
      intro e he hnot
      exact absurd he hnot
    · rw [processFolder_delete f days hread hz]
      refine ⟨?_, ?_, ?_⟩
      · show (f.entries.filter (fun e => e.isRegular)).foldl
            (deleteStep (cutoffOf f.entries days)) 0 ≤ _
        rw [foldl_deleteStep]
        simpa using List.countP_le_length (wouldDelete (cutoffOf f.entries days))
      · show (f.entries.filter (fun e => e.isRegular)).foldl
            (deleteStep (cutoffOf f.entries days)) 0 + _ = _
        rw [foldl_deleteStep, countP_wouldDelete_filter]
        simpa using countP_add_length_filter_not
          (fun e => entryDeleted e (cutoffOf f.entries days)) f.entries
      · intro e he hnot
        have hdel : entryDeleted e (cutoffOf f.entries days) = true := by
          cases hb : entryDeleted e (cutoffOf f.entries days)
          · exact absurd (List.mem_filter.mpr ⟨he, by rw [hb]; rfl⟩) hnot
          · rfl
        simp only [entryDeleted, Bool.and_eq_true] at hdel
        exact removeOk_of_wouldDelete (cutoffOf f.entries days) e hdel.2

/-- C9 witness: counts of the sample folder run with a one-day window. -/
theorem deleted_counts_successful_removals_witness :
    (processFolder sampleFolder 1).deleted ≤ (processFolder sampleFolder 1).total ∧
    (processFolder sampleFolder 1).deleted +
        (processFolder sampleFolder 1).remaining.length
      = sampleFolder.entries.length ∧
    (∀ e ∈ sampleFolder.entries, e ∉ (processFolder sampleFolder 1).remaining →
      e.removeOk = true) :=
  deleted_counts_successful_removals sampleFolder 1 (by decide)

/-- C10: a readable folder with at least one regular file, all of whose
regular files fail to stat, takes the no-newest-timestamp branch: a
positive seen count, zero deletions, no error, and untouched contents. -/
theorem all_stat_errors_skip_folder (f : Folder) (days : Int)
    (hread : f.readOk = true)
    (hne : ∃ e ∈ f.entries, e.isRegular = true)
    (hfail : ∀ e ∈ f.entries, e.isRegular = true → e.stat = none) :
    0 < (processFolder f days).total ∧
    (processFolder f days).total
      = (f.entries.filter (fun e => e.isRegular)).length ∧
    (processFolder f days).deleted = 0 ∧
    (processFolder f days).err = false ∧
    (processFolder f days).remaining = f.entries := by
  have hz : scanNewest f.entries = 0 := by
    apply scanNewest_eq_zero_of_no_newest
    intro e he
    unfold entryNewest?
    cases hr : e.isRegular
    · simp
    · rw [hfail e he hr]
      simp
  rw [processFolder_skip f days hread hz]
  refine ⟨?_, rfl, rfl, rfl, rfl⟩
  rcases hne with ⟨e, he, hreg⟩
  have hmem : e ∈ f.entries.filter (fun e => e.isRegular) :=
    List.mem_filter.mpr ⟨he, hreg⟩
  show 0 < (f.entries.filter (fun e => e.isRegular)).length
  exact List.length_pos.mpr (fun hnil => by rw [hnil] at hmem; cases hmem)

/-- C10 witness: the folder whose only regular file fails to stat. -/
theorem all_stat_errors_skip_folder_witness :
    0 < (processFolder statErrFolder 3).total ∧
    (processFolder statErrFolder 3).total
      = (statErrFolder.entries.filter (fun e => e.isRegular)).length ∧
    (processFolder statErrFolder 3).deleted = 0 ∧
    (processFolder statErrFolder 3).err = false ∧
    (processFolder statErrFolder 3).remaining = statErrFolder.entries :=
  all_stat_errors_skip_folder statErrFolder 3 rfl ⟨statErrEntry, by decide, rfl⟩
    (by decide)

/-- C3 counterexample: with the numeric first CLI argument `0` and the
environment variable DAYS set to `7`, the resulting days value is 7, taken
from the environment — the numeric CLI argument does not override the
environment, because `mergeConfigs` treats a zero days field as unset. -/
theorem merge_precedence_counterexample :
    isNumber zeroStr = true ∧
    resolveConfig [zeroStr, folderF] (fun _ => none) ⟨sevenStr, ""⟩ =
      ConfigResult.ok ⟨7, [folderF]⟩ ∧
    resolveConfig [zeroStr, folderF] (fun _ => none) ⟨sevenStr, ""⟩ ≠
      ConfigResult.ok ⟨0, [folderF]⟩ := by
  decide

/-- C3 amended: sources merge with precedence CLI/YAML over environment,
but a zero days value and an empty folder list count as unset: a numeric
first CLI argument overrides the environment days only when nonzero (a
zero argument falls through to the environment), and explicit CLI folder
arguments, when present, override FOLDERS. -/
theorem merge_precedence_zero_as_unset
    (a0 : String) (rest : List String) (yaml : String → Option Config)
    (env : Env) (d : Int) (hd : atoi a0 = some d) :
    mergedOf (a0 :: rest) yaml env =
      ConfigResult.ok
        ⟨if d = 0 then (parseEnvConfig env).1.days else d,
         if rest = [] then (parseEnvConfig env).1.folders else rest⟩ := by
  have hnum : isNumber a0 = true := by
    unfold isNumber
    rw [hd]
    rfl
  unfold mergedOf argConfigOf
  dsimp only
  rw [if_pos hnum, hd]
  rfl

/-- C3 amended witness: a nonzero numeric CLI argument keeps its days, and
a CLI folder argument keeps its folders, against an empty environment. -/
theorem merge_precedence_zero_as_unset_witness :
    mergedOf (fiveStr :: [folderX]) (fun _ => none) ⟨"", ""⟩ =
      ConfigResult.ok
        ⟨if (5 : Int) = 0 then (parseEnvConfig ⟨"", ""⟩).1.days else 5,
         if ([folderX] : List String) = [] then (parseEnvConfig ⟨"", ""⟩).1.folders
         else [folderX]⟩ :=
  merge_precedence_zero_as_unset fiveStr [folderX] (fun _ => none) ⟨"", ""⟩ 5
    (by decide)

/-- C4 counterexample: DAYS set to the non-numeric string `abc` while the
CLI supplies days 5 and a folder — the process does not exit nonzero, it
resolves the configuration successfully, because `main` discards the error
of `parseEnvConfig`. -/
theorem nonnumeric_days_env_not_always_fatal :
    atoi badDaysStr = none ∧
    resolveConfig [fiveStr, folderX] (fun _ => none) ⟨badDaysStr, ""⟩ =
      ConfigResult.ok ⟨5, [folderX]⟩ ∧
    resolveConfig [fiveStr, folderX] (fun _ => none) ⟨badDaysStr, ""⟩ ≠
      ConfigResult.fatal := by
  decide

/-- C4 amended: a non-numeric DAYS is never itself fatal.  `main` discards
the error of `parseEnvConfig`, whose early return then contributes neither
days nor folders, so for every combination of CLI arguments and YAML file
the merge and the whole configuration resolution behave exactly as if both
environment variables were unset; the process may still exit nonzero for
the other fatal reasons — in particular, with no CLI arguments at all the
merged configuration is empty and the missing-parameter check fires. -/
theorem nonnumeric_days_env_ignored
    (args : List String) (yaml : String → Option Config) (env : Env)
    (hset : env.days ≠ "") (hbad : atoi env.days = none) :
    (parseEnvConfig env).1 = ⟨0, []⟩ ∧
    mergedOf args yaml env = mergedOf args yaml ⟨"", ""⟩ ∧
    resolveConfig args yaml env = resolveConfig args yaml ⟨"", ""⟩ ∧
    (args = [] → resolveConfig args yaml env = ConfigResult.fatal) := by
  have h1 : (parseEnvConfig env).1 = (⟨0, []⟩ : Config) := by
    unfold parseEnvConfig
    rw [if_neg hset, hbad]
  have h2 : (parseEnvConfig ⟨"", ""⟩).1 = (⟨0, []⟩ : Config) := rfl
  have henv : (parseEnvConfig env).1 = (parseEnvConfig ⟨"", ""⟩).1 :=
    h1.trans h2.symm
  refine ⟨h1, mergedOf_env_congr args yaml env ⟨"", ""⟩ henv,
    resolveConfig_env_congr args yaml env ⟨"", ""⟩ henv, ?_⟩
  intro hargs
  subst hargs
  rw [resolveConfig_env_congr [] yaml env ⟨"", ""⟩ henv]
  rfl

/-- C4 amended witness: with FOLDERS set but DAYS non-numeric, the
environment contributes nothing, resolution equals the unset-environment
resolution, and with no CLI arguments the run is fatal. -/
theorem nonnumeric_days_env_ignored_witness :
    (parseEnvConfig ⟨badDaysStr, folderX⟩).1 = ⟨0, []⟩ ∧
    mergedOf [] (fun _ => none) ⟨badDaysStr, folderX⟩ =
      mergedOf [] (fun _ => none) ⟨"", ""⟩ ∧
    resolveConfig [] (fun _ => none) ⟨badDaysStr, folderX⟩ =
      resolveConfig [] (fun _ => none) ⟨"", ""⟩ ∧
    (([] : List String) = [] →
      resolveConfig [] (fun _ => none) ⟨badDaysStr, folderX⟩ =
        ConfigResult.fatal) :=
  nonnumeric_days_env_ignored [] (fun _ => none) ⟨badDaysStr, folderX⟩
    (by decide) (by decide)

/-- C5: after merging, a non-positive days value or an empty folder list
is fatal; and a non-numeric first CLI argument naming an unreadable or
malformed YAML file is fatal. -/
theorem invalid_merged_config_fatal
    (args : List String) (yaml : String → Option Config) (env : Env) :
    (∀ cfg, mergedOf args yaml env = ConfigResult.ok cfg →
        cfg.days ≤ 0 ∨ cfg.folders = [] →
        resolveConfig args yaml env = ConfigResult.fatal) ∧
    (∀ a0 rest, args = a0 :: rest → isNumber a0 = false → yaml a0 = none →
        resolveConfig args yaml env = ConfigResult.fatal) := by
  constructor
  · intro cfg hm hbad
    unfold resolveConfig
    rw [hm]
    dsimp only
    rw [if_pos hbad]
  · intro a0 rest hargs hnum hyaml
    subst hargs
    have hnot : ¬ isNumber a0 = true := by
      rw [hnum]
      simp
    unfold resolveConfig mergedOf argConfigOf
    dsimp only
    rw [if_neg hnot, hyaml]

/-- C5 witness: with no sources at all the merged config is empty and the
process exits nonzero; an unreadable YAML path is likewise fatal. -/
theorem invalid_merged_config_fatal_witness :
    resolveConfig [] (fun _ => none) ⟨"", ""⟩ = ConfigResult.fatal ∧
    resolveConfig [badDaysStr] (fun _ => none) ⟨"", ""⟩ = ConfigResult.fatal :=
  ⟨(invalid_merged_config_fatal [] (fun _ => none) ⟨"", ""⟩).1 ⟨0, []⟩ (by decide)
      (Or.inl (by decide)),
   (invalid_merged_config_fatal [badDaysStr] (fun _ => none) ⟨"", ""⟩).2 badDaysStr
      [] rfl (by decide) rfl⟩

/-- C7: `processFolder` returns an error exactly for a ReadDir failure,
never for per-file stat or delete failures; and in the folder loop of
`main`, a blank name or a missing / non-directory target is skipped while
the run continues over the remaining folders. -/
theorem perfile_errors_recoverable :
    (∀ (f : Folder) (days : Int), (processFolder f days).err = !f.readOk) ∧
    (∀ (fs : String → Option Folder) (days : Int) (acc : Nat × Nat)
        (name : String), name.trim = "" ∨ fs name.trim = none →
        mainStep fs days acc name = acc) ∧
    (∀ (fs : String → Option Folder) (days : Int) (name : String)
        (rest : List String), fs name.trim = none →
        runFolders fs days (name :: rest) = runFolders fs days rest) := by
  refine ⟨?_, ?_, ?_⟩
  · intro f days
    cases hread : f.readOk
    · rw [processFolder_readErr f days hread]
      rfl
    · by_cases hz : scanNewest f.entries = 0
      · rw [processFolder_skip f days hread hz]
        rfl
      · rw [processFolder_delete f days hread hz]
        rfl
  · exact fun fs days acc name h => mainStep_skip fs days acc name h
  · intro fs days name rest h
    unfold runFolders
    rw [List.foldl_cons, mainStep_skip fs days (0, 0) name (Or.inr h)]

/-- C7 witness: a folder with a failing stat yields no returned error, a
missing folder is skipped with the accumulator unchanged, and the run over
the remaining (empty) folder list is unaffected. -/
theorem perfile_errors_recoverable_witness :
    (processFolder statErrFolder 1).err = !statErrFolder.readOk ∧
    mainStep (fun _ => none) 1 (2, 1) missingName = (2, 1) ∧
    runFolders (fun _ => none) 1 (missingName :: []) =
      runFolders (fun _ => none) 1 [] :=
  ⟨perfile_errors_recoverable.1 statErrFolder 1,
   perfile_errors_recoverable.2.1 (fun _ => none) 1 (2, 1) missingName (Or.inr rfl),
   perfile_errors_recoverable.2.2 (fun _ => none) 1 missingName [] rfl⟩

end Cleanup
